import Mathlib

/-!
Shallow embedding of the realmkbot synchronization core
(src/util.rs, src/db.rs, src/main.rs) and proofs about it.

Machine integers of the source (i32 message ids, i64 user ids, u8 limits)
are embedded as Int / Nat: none of the verified behaviours exercise
overflow.  SQLite is embedded at the level of its documented semantics on
the two tables the program creates:

  message(id INTEGER PRIMARY KEY, text TEXT, is_forwarded BOOLEAN, raw BLOB)
  user(user_id INTEGER PRIMARY KEY, count INTEGER)

A table is a list of rows; row order is irrelevant to every verified
query (the two readers order by RANDOM(), modelled by an arbitrary
permutation parameter).  Nondeterminism of the engine (ORDER BY RANDOM(),
the arbitrary row supplying bare columns in an aggregate query, the LIKE
collation) is made explicit as parameters of the embedded operations.
-/

namespace Realmk

/-- Row of the message table; mirrors struct MessageRecord in src/db.rs. -/
structure MessageRecord where
  id : Int
  text : Option String
  is_forwarded : Bool
  raw : List Nat
  deriving Repr, DecidableEq

/-- Row subset returned by random / search; mirrors struct SearchResult. -/
structure SearchResult where
  id : Int
  text : String
  deriving Repr, DecidableEq

/-- Mirrors struct UserStat in src/db.rs. -/
structure UserStat where
  user_id : Int
  count : Nat
  total_users : Nat
  lower_users : Nat
  deriving Repr, DecidableEq

/-- The two tables of the SQLite database created by Database::pre_start. -/
structure Db where
  message : List MessageRecord
  user : List (Int × Nat)
  deriving Repr, DecidableEq

/-- The synthetic inline-result id of the stats entry (USER_STATS_ID). -/
def USER_STATS_ID : String := "stats"

namespace Db

/-- Database::upsert_one: INSERT OR REPLACE INTO message.
SQLite REPLACE removes every row conflicting on the primary key and
inserts the new row. -/
def upsert_one (msg : MessageRecord) (db : Db) : Db :=
  { db with message := db.message.filter (fun m => m.id ≠ msg.id) ++ [msg] }

/-- One DELETE FROM message WHERE id = ?1 statement; rusqlite's execute
returns the number of rows changed. -/
def deleteOne (id : Int) (msgs : List MessageRecord) : Nat × List MessageRecord :=
  (msgs.countP (fun m => m.id = id), msgs.filter (fun m => m.id ≠ id))

/-- One iteration of the for loop in Database::delete: run the per-id
DELETE statement, add the rows changed to num, count the statement. -/
def deleteStep (acc : Nat × List MessageRecord × Nat) (id : Int) :
    Nat × List MessageRecord × Nat :=
  (acc.1 + (deleteOne id acc.2.1).1, (deleteOne id acc.2.1).2, acc.2.2 + 1)

/-- Database::delete: short-circuits on an empty id list, otherwise runs
one DELETE statement per id, summing the rows changed.  Besides the count
and the new state it reports how many statements reached the engine. -/
def delete (ids : List Int) (db : Db) : Nat × Db × Nat :=
  if ids.isEmpty then (0, db, 0)
  else
    let r := ids.foldl deleteStep (0, db.message, 0)
    (r.1, { db with message := r.2.1 }, r.2.2)

/-- Database::existing_ids: SELECT id FROM message collected into a set. -/
def existing_ids (db : Db) : Finset Int :=
  db.message.foldr (fun m s => insert m.id s) ∅

/-- Filter of Database::random:
WHERE is_forwarded = TRUE AND text IS NOT NULL. -/
def randomRow (m : MessageRecord) : Bool :=
  m.is_forwarded && m.text.isSome

/-- Projection SELECT id, text (text known non-NULL by the filter). -/
def toSearchResult (m : MessageRecord) : SearchResult :=
  { id := m.id, text := m.text.getD "" }

/-- Database::random: the engine's ORDER BY RANDOM() is an arbitrary
permutation, passed in as `shuffle`. -/
def random (shuffle : List MessageRecord → List MessageRecord) (db : Db)
    (limit : Nat) : List SearchResult :=
  ((shuffle (db.message.filter randomRow)).take limit).map toSearchResult

/-- Filter of Database::search:
WHERE text IS NOT NULL AND text LIKE '%reg%' AND is_forwarded = TRUE.
`like` is the engine's LIKE predicate (pattern, then text). -/
def searchRow (like : String → String → Bool) (reg : String)
    (m : MessageRecord) : Bool :=
  match m.text with
  | none => false
  | some t => like ("%" ++ reg ++ "%") t && m.is_forwarded

/-- Database::search, with the engine's row order and LIKE made explicit. -/
def search (shuffle : List MessageRecord → List MessageRecord)
    (like : String → String → Bool) (db : Db) (reg : String)
    (limit : Nat) : List SearchResult :=
  ((shuffle (db.message.filter (searchRow like reg))).take limit).map toSearchResult

/-- Database::bump_user_count:
INSERT INTO user (user_id, count) VALUES (?1, 1)
ON CONFLICT(user_id) DO UPDATE SET count = count + 1. -/
def bump_user_count (uid : Int) (db : Db) : Db :=
  if db.user.any (fun r => r.1 = uid) then
    { db with user := db.user.map (fun r => if r.1 = uid then (r.1, r.2 + 1) else r) }
  else
    { db with user := db.user ++ [(uid, 1)] }

/-- Database::get_user_stats runs
SELECT count, count(*), COUNT(count <= u.count) FROM user u HAVING user_id = ?1.
SQLite semantics: with aggregates and no GROUP BY the whole table is one
group (an empty table gives a group whose bare columns are NULL, so the
HAVING comparison is NULL and the row is filtered out); the bare columns
user_id (in HAVING) and count (in SELECT) each take their value from an
arbitrary row of the group, modelled by the indices pickH and pickS;
COUNT(count <= u.count) counts the rows on which the expression
count <= u.count is non-NULL — both names denote the iterated row's own
count column, so the expression is a non-NULL tautology on every row. -/
def get_user_stats (pickH pickS : Nat) (uid : Int) (db : Db) : Option UserStat :=
  match db.user with
  | [] => none
  | r :: rs =>
    let rows := r :: rs
    let havingRow := rows.getD pickH r
    let selectRow := rows.getD pickS r
    if havingRow.1 = uid then
      some { user_id := uid
             count := selectRow.2
             total_users := rows.length
             lower_users := (rows.filter (fun s => s.2 ≤ s.2)).length }
    else none

end Db

/-!  SkippingIter (src/util.rs).  The iterator holds a current candidate
`curr` (starting at 1) and a snapshot set of ids to skip; next() recurses
past members of the set and yields the first non-member.  The Rust
recursion terminates because the snapshot is finite; here the recursion
depth is an explicit fuel, and `nextFuel` sufficiently fuelled is proved
to agree with the recursion's value. -/

/-- SkippingIter::next with explicit recursion fuel: yields the value and
the successor state (the Rust code increments curr past the yield). -/
def nextFuel (inner : Finset Int) : Nat → Int → Option (Int × Int)
  | 0, _ => none
  | fuel + 1, curr =>
    if curr ∈ inner then nextFuel inner fuel (curr + 1)
    else some (curr, curr + 1)

/-- First n values yielded by a SkippingIter whose state is curr, each
next() call run with the given fuel (none if some call exhausts it). -/
def takeSkips (inner : Finset Int) (fuel : Nat) : Nat → Int → Option (List Int)
  | 0, _ => some []
  | n + 1, curr =>
    match nextFuel inner fuel curr with
    | none => none
    | some (v, c) => (takeSkips inner fuel n c).map (fun l => v :: l)

/-!  invoke (src/util.rs). -/

/-- grammers InvocationError, to the precision invoke inspects it: an RPC
error carries a code and an optional value (the flood-wait seconds);
everything else is opaque. -/
inductive InvocationError where
  | rpc (code : Int) (value : Option Nat)
  | other (tag : Nat)
  deriving Repr, DecidableEq

/-- Is this the flood-wait case invoke retries on (rpc.code == 420)? -/
def isFloodWait : InvocationError → Bool
  | .rpc code _ => code = 420
  | .other _ => false

/-- invoke: runs the operation; on an rpc error with code 420 sleeps
rpc.value.unwrap_or(30) seconds and loops; any other error and any
success return immediately.  The operation is a function of the attempt
index (attempt 0 first); the result records the value returned, the
number of invocations made, and the sleeps performed in order.  Fuel
bounds the number of iterations of the Rust loop. -/
def invokeRun {R : Type} (f : Nat → Except InvocationError R) :
    Nat → Nat → List Nat → Option (Except InvocationError R × Nat × List Nat)
  | 0, _, _ => none
  | fuel + 1, k, sleeps =>
    match f k with
    | .error (.rpc code v) =>
        if code = 420 then invokeRun f fuel (k + 1) (sleeps ++ [v.getD 30])
        else some (.error (.rpc code v), k + 1, sleeps)
    | .error (.other t) => some (.error (.other t), k + 1, sleeps)
    | .ok r => some (.ok r, k + 1, sleeps)

/-- Entry point of invoke: attempt 0, no sleeps yet. -/
def invoke {R : Type} (fuel : Nat) (f : Nat → Except InvocationError R) :
    Option (Except InvocationError R × Nat × List Nat) :=
  invokeRun f fuel 0 []

/-!  App::populate (src/main.rs).  The remote source is a function from a
message id to an optional record: get_messages_by_id returns, per
requested id and in input order, either the message or None.  The outer
'outter loop gets explicit fuel (one unit per batch); the inner for loop
is structural.  The trace records everything the claims speak about: the
ids handed to get_messages_by_id (fetched), the ids whose result the for
loop actually examined (classified), the records upserted, and the final
added count. -/

/-- Total form of SkippingIter::next: inner.card + 1 fuel always
suffices (proved below), so the default branch is never taken. -/
def iterNext (inner : Finset Int) (curr : Int) : Int × Int :=
  (nextFuel inner (inner.card + 1) curr).getD (curr, curr + 1)

/-- iter.take(n).collect(): the n ids drawn for one batch and the
iterator state afterwards. -/
def takeBatch (inner : Finset Int) : Nat → Int → List Int × Int
  | 0, curr => ([], curr)
  | n + 1, curr =>
    ((iterNext inner curr).1 ::
        (takeBatch inner n (iterNext inner curr).2).1,
     (takeBatch inner n (iterNext inner curr).2).2)

/-- Outcome of the inner for loop over one batch's results. -/
structure BatchOut where
  consec : Nat
  added : Nat
  ups : List MessageRecord
  classified : List Int
  stopped : Bool
  deriving Repr, DecidableEq

/-- The for loop of App::populate over one batch: before examining each
result it breaks out of the whole backfill if consecutive_empty_msg > 10;
a None result increments that counter, a Some result resets it to 0,
upserts the record and increments added. -/
def processBatch : List (Int × Option MessageRecord) → Nat → Nat →
    List MessageRecord → List Int → BatchOut
  | [], consec, added, ups, classified =>
    ⟨consec, added, ups, classified, false⟩
  | (id, m) :: rest, consec, added, ups, classified =>
    if consec > 10 then ⟨consec, added, ups, classified, true⟩
    else
      match m with
      | none => processBatch rest (consec + 1) added ups (classified ++ [id])
      | some msg =>
          processBatch rest 0 (added + 1) (ups ++ [msg]) (classified ++ [id])

/-- Final outcome of a terminated backfill. -/
structure PopOut where
  added : Nat
  ups : List MessageRecord
  classified : List Int
  fetched : List Int
  deriving Repr, DecidableEq

/-- The 'outter loop of App::populate: draw 100 candidate ids, fetch them
all in one batched call, run the for loop, stop when it signalled the
break. -/
def populateLoop (source : Int → Option MessageRecord) (inner : Finset Int) :
    Nat → Int → Nat → Nat → List MessageRecord → List Int → List Int →
    Option PopOut
  | 0, _, _, _, _, _, _ => none
  | fuel + 1, curr, consec, added, ups, classified, fetched =>
    let batch := (takeBatch inner 100 curr).1
    let p := processBatch (batch.map fun id => (id, source id)) consec added
      ups classified
    if p.stopped then some ⟨p.added, p.ups, p.classified, fetched ++ batch⟩
    else
      populateLoop source inner fuel (takeBatch inner 100 curr).2 p.consec
        p.added p.ups p.classified (fetched ++ batch)

/-- App::populate in normal mode with exclusion set inner:
consecutive_empty_msg = 0, added = 0, iterator fresh at curr = 1. -/
def populate (source : Int → Option MessageRecord) (inner : Finset Int)
    (fuel : Nat) : Option PopOut :=
  populateLoop source inner fuel 1 0 0 [] [] []

/-- The simulated source of the backfill-termination scenario: a record
for ids 1..100, not-found for every other id. -/
def simSource (i : Int) : Option MessageRecord :=
  if 1 ≤ i ∧ i ≤ 100 then some ⟨i, none, false, []⟩ else none

/-- Fetched-id list of an optional backfill outcome ([] when none). -/
def fetchedOf (o : Option PopOut) : List Int :=
  (o.map (fun r => r.fetched)).getD []

/-!  App::handle_update (src/main.rs). -/

/-- grammers Update, to the precision handle_update inspects it.
newMessage carries the chat id of the message and its converted record;
messageDeleted carries channel_id() (None when the deletion was not in a
channel) and the deleted ids; inlineQuery carries the sender and the
query text; inlineSend carries the sender and the chosen result id. -/
inductive Update where
  | newMessage (chatId : Int) (rec : MessageRecord)
  | messageDeleted (channelId : Option Int) (msgIds : List Int)
  | inlineQuery (senderId : Int) (text : String)
  | inlineSend (senderId : Int) (resultId : String)
  | otherUpdate
  deriving Repr, DecidableEq

/-- App::handle_update, returning the database state after the event.
chatId is self.chat.id(); shuffle / like / pickH / pickS expose the
engine nondeterminism of the reads the query branch performs (those reads
never change the state).  Every branch of the Rust function that is
modelled returns Ok(()) unless a storage call fails; storage calls are
embedded as pure state transformers, so the embedding returns the state
alone. -/
def handle_update (chatId : Int)
    (shuffle : List MessageRecord → List MessageRecord)
    (like : String → String → Bool) (pickH pickS : Nat)
    (u : Update) (db : Db) : Db :=
  match u with
  | .messageDeleted channelId msgIds =>
      if channelId ≠ some chatId then db
      else (db.delete msgIds).2.1
  | .inlineQuery senderId text =>
      let _results :=
        if text = "" then db.random shuffle 10
        else db.search shuffle like text 10
      let _userStat := db.get_user_stats pickH pickS senderId
      db
  | .inlineSend senderId resultId =>
      if resultId = USER_STATS_ID then db
      else db.bump_user_count senderId
  | .newMessage msgChatId rec =>
      if msgChatId ≠ chatId then db
      else db.upsert_one rec
  | .otherUpdate => db

/-!  The store operations of Database (src/db.rs), enumerated, with their
effect on the database state.  The reads (random, search, existing_ids,
get_user_stats) execute SELECT statements only and leave the state as it
was. -/

/-- One call to a Database method, with its arguments. -/
inductive DbOp where
  | randomOp (shuffle : List MessageRecord → List MessageRecord) (limit : Nat)
  | searchOp (shuffle : List MessageRecord → List MessageRecord)
      (like : String → String → Bool) (reg : String) (limit : Nat)
  | upsertOp (msg : MessageRecord)
  | deleteOp (ids : List Int)
  | existingIdsOp
  | bumpOp (uid : Int)
  | statsOp (pickH pickS : Nat) (uid : Int)

/-- State transformer of each Database method. -/
def applyOp (op : DbOp) (db : Db) : Db :=
  match op with
  | .randomOp _ _ => db
  | .searchOp _ _ _ _ => db
  | .upsertOp msg => db.upsert_one msg
  | .deleteOp ids => (db.delete ids).2.1
  | .existingIdsOp => db
  | .bumpOp uid => db.bump_user_count uid
  | .statsOp _ _ _ => db

/-!  Auxiliary definitions used only to state and instantiate theorems. -/

/-- Does needle occur at the very start of hay? -/
def leadsChars : List Char → List Char → Bool
  | [], _ => true
  | _ :: _, [] => false
  | a :: as, b :: bs => a = b && leadsChars as bs

/-- Does needle occur somewhere inside hay? -/
def occursInChars (needle : List Char) : List Char → Bool
  | [] => needle.isEmpty
  | c :: cs => leadsChars needle (c :: cs) || occursInChars needle cs

/-- Plain (case-sensitive) substring occurrence on strings; the reading
of "text LIKE '%reg%'" the claims license for a wildcard-free reg. -/
def occursIn (needle hay : String) : Bool :=
  occursInChars needle.toList hay.toList

/-- The part of a backfill outcome that depends on the remote source only
through which ids it has a record for: added count, number of upserts,
classified ids, fetched ids. -/
def popTrace (o : Option PopOut) : Option (Nat × Nat × List Int × List Int) :=
  o.map fun r => (r.added, r.ups.length, r.classified, r.fetched)

/-- Counter table {A:3, B:5, C:5} of the counter/rank scenario, with
user ids A = 1, B = 2, C = 3; message table empty. -/
def statsDb : Db := ⟨[], [(1, 3), (2, 5), (3, 5)]⟩

/-- A store holding exactly one message, id 7, for concrete instances. -/
def rec7 : MessageRecord := ⟨7, some "seven", true, [1]⟩

/-- Variant content under the same id 7. -/
def rec7b : MessageRecord := ⟨7, some "seven again", false, [2]⟩

/-- Store containing only rec7. -/
def db7 : Db := ⟨[rec7], []⟩

/-- Operation failing RateLimited with wait 0 on attempts 0 and 1, then
succeeding with 7. -/
def twoFloodThenOk : Nat → Except InvocationError Nat :=
  fun k => if k < 2 then .error (.rpc 420 (some 0)) else .ok 7

/-!  Lemmas about SkippingIter. -/

/-- What a successful next() call guarantees: the new state is one past
the yield, the yield is the least candidate at or beyond the old state
that is not in the snapshot. -/
theorem nextFuel_eq_some {inner : Finset Int} :
    ∀ {fuel : Nat} {curr v c : Int}, nextFuel inner fuel curr = some (v, c) →
      c = v + 1 ∧ curr ≤ v ∧ v ∉ inner ∧ ∀ y, curr ≤ y → y < v → y ∈ inner := by
  intro fuel
  induction fuel with
  | zero => intro curr v c h; simp [nextFuel] at h
  | succ fuel ih =>
    intro curr v c h
    rw [nextFuel] at h
    by_cases hc : curr ∈ inner
    · rw [if_pos hc] at h
      obtain ⟨h1, h2, h3, h4⟩ := ih h
      refine ⟨h1, by omega, h3, fun y hy1 hy2 => ?_⟩
      rcases eq_or_lt_of_le hy1 with rfl | hy
      · exact hc
      · exact h4 y (by omega) hy2
    · rw [if_neg hc] at h
      obtain ⟨rfl, rfl⟩ : v = curr ∧ c = curr + 1 := by
        have := Option.some.inj h
        exact ⟨(Prod.mk.injEq _ _ _ _ ▸ this).1.symm,
               (Prod.mk.injEq _ _ _ _ ▸ this).2.symm⟩
      exact ⟨rfl, le_refl _, hc, fun y hy1 hy2 => absurd (hy1.trans_lt hy2) (lt_irrefl _)⟩

/-- next() terminates with a value whenever the fuel exceeds the number
of snapshot members still ahead of the state; since that number is at
most the snapshot's size, next() never yields None. -/
theorem nextFuel_isSome (inner : Finset Int) :
    ∀ (fuel : Nat) (curr : Int),
      (inner.filter (fun x => curr ≤ x)).card < fuel →
      (nextFuel inner fuel curr).isSome = true := by
  intro fuel
  induction fuel with
  | zero => intro curr h; omega
  | succ fuel ih =>
    intro curr h
    rw [nextFuel]
    by_cases hc : curr ∈ inner
    · rw [if_pos hc]
      refine ih (curr + 1) ?_
      have hsub : inner.filter (fun x => curr + 1 ≤ x) ⊆
          inner.filter (fun x => curr ≤ x) := by
        intro x hx
        rw [Finset.mem_filter] at hx ⊢
        exact ⟨hx.1, by omega⟩
      have hss : inner.filter (fun x => curr + 1 ≤ x) ⊂
          inner.filter (fun x => curr ≤ x) := by
        refine (Finset.ssubset_iff_of_subset hsub).2
          ⟨curr, Finset.mem_filter.2 ⟨hc, le_refl _⟩, fun hmem => ?_⟩
        rw [Finset.mem_filter] at hmem
        omega
      have := Finset.card_lt_card hss
      omega
    · rw [if_neg hc]; rfl

/-- The canonical fuel inner.card + 1 always suffices. -/
theorem nextFuel_card_isSome (inner : Finset Int) (curr : Int) :
    (nextFuel inner (inner.card + 1) curr).isSome = true :=
  nextFuel_isSome inner _ curr
    (Nat.lt_succ_of_le (Finset.card_filter_le _ _))

/-- The first n yields from state curr: they exist, they are strictly
ascending, they avoid the snapshot, they all lie at or beyond curr, and
no eligible candidate is skipped (anything eligible is either among them
or beyond all of them).  Together these say the i-th yield is the i-th
smallest candidate at or beyond curr outside the snapshot. -/
theorem takeSkips_spec (inner : Finset Int) :
    ∀ (n : Nat) (curr : Int), ∃ L,
      takeSkips inner (inner.card + 1) n curr = some L ∧ L.length = n ∧
      L.Sorted (· < ·) ∧ (∀ x ∈ L, curr ≤ x ∧ x ∉ inner) ∧
      (∀ x, curr ≤ x → x ∉ inner → x ∈ L ∨ ∀ y ∈ L, y < x) := by
  intro n
  induction n with
  | zero =>
    intro curr
    exact ⟨[], rfl, rfl, List.sorted_nil, by simp, fun x _ _ => Or.inr (by simp)⟩
  | succ n ih =>
    intro curr
    have hsome := nextFuel_card_isSome inner curr
    obtain ⟨⟨v, c⟩, hvc⟩ := Option.isSome_iff_exists.1 hsome
    obtain ⟨hc1, hc2, hc3, hc4⟩ := nextFuel_eq_some hvc
    obtain ⟨L, hL, hlen, hsort, hmem, hclose⟩ := ih c
    refine ⟨v :: L, ?_, by simp [hlen], ?_, ?_, ?_⟩
    · rw [takeSkips, hvc]; simp [hL]
    · refine List.sorted_cons.2 ⟨fun b hb => ?_, hsort⟩
      have := (hmem b hb).1
      omega
    · intro x hx
      rcases List.mem_cons.1 hx with rfl | hx
      · exact ⟨hc2, hc3⟩
      · have := hmem x hx
        exact ⟨by omega, this.2⟩
    · intro x hx hnx
      rcases lt_trichotomy x v with hlt | rfl | hgt
      · exact absurd (hc4 x hx hlt) hnx
      · exact Or.inl (List.mem_cons_self _ _)
      · rcases hclose x (by omega) hnx with hxL | hall
        · exact Or.inl (List.mem_cons.2 (Or.inr hxL))
        · refine Or.inr fun y hy => ?_
          rcases List.mem_cons.1 hy with rfl | hy
          · exact hgt
          · exact hall y hy

/-- C4: for every finite snapshot set, the gap iterator never yields
None (next() returns a value whenever its recursion fuel exceeds the
number of snapshot members ahead of the state, and snapshot-size-plus-one
fuel always does), and the first n yielded values from the initial state
1 are exactly the n smallest positive integers outside the snapshot, in
strictly ascending order; for snapshot {2,4,5,7} the first six values
are 1, 3, 6, 8, 9, 10. -/
theorem skipping_iter_correct :
    (∀ (inner : Finset Int) (n : Nat), ∃ L,
       takeSkips inner (inner.card + 1) n 1 = some L ∧ L.length = n ∧
       L.Sorted (· < ·) ∧ (∀ x ∈ L, 1 ≤ x ∧ x ∉ inner) ∧
       (∀ x, 1 ≤ x → x ∉ inner → x ∈ L ∨ ∀ y ∈ L, y < x)) ∧
    (∀ (inner : Finset Int) (fuel : Nat) (curr : Int),
       (inner.filter (fun x => curr ≤ x)).card < fuel →
       (nextFuel inner fuel curr).isSome = true) ∧
    takeSkips ({2, 4, 5, 7} : Finset Int) 5 6 1 = some [1, 3, 6, 8, 9, 10] :=
  ⟨fun inner n => takeSkips_spec inner n 1, nextFuel_isSome, by decide⟩

/-- Closed instance of skipping_iter_correct discharging its fuel
hypothesis at snapshot {2,4,5,7}, fuel 5, state 1. -/
theorem skipping_iter_correct_witness :
    (({2, 4, 5, 7} : Finset Int).filter (fun x => (1 : Int) ≤ x)).card < 5 ∧
    (nextFuel ({2, 4, 5, 7} : Finset Int) 5 1).isSome = true :=
  ⟨by decide, skipping_iter_correct.2.1 _ 5 1 (by decide)⟩

/-!  Upsert (claim about Database::upsert_one). -/

/-- Filtering for an id right after filtering it away yields nothing. -/
theorem filter_ne_then_eq (i : Int) (l : List MessageRecord) :
    (l.filter (fun m => m.id ≠ i)).filter (fun m => m.id = i) = [] := by
  induction l with
  | nil => rfl
  | cons m t ih =>
    by_cases h : m.id = i <;> simp [List.filter, h, ih]

/-- Filtering away an id is idempotent. -/
theorem filter_ne_idem (i : Int) (l : List MessageRecord) :
    (l.filter (fun m => m.id ≠ i)).filter (fun m => m.id ≠ i) =
      l.filter (fun m => m.id ≠ i) := by
  rw [List.filter_filter]
  exact List.filter_congr fun a _ => by by_cases h : a.id = i <;> simp [h]

/-- C5: upsert is keyed by id with full-replacement semantics: after
upsert_one r the rows with id r.id are exactly [r]; rows under any other
id are untouched; upserting r twice equals upserting it once (so exactly
one row with r's id remains, equal to the last write). -/
theorem upsert_last_writer_wins (db : Db) (r : MessageRecord) :
    (db.upsert_one r).message.filter (fun m => m.id = r.id) = [r] ∧
    (db.upsert_one r).message.countP (fun m => m.id = r.id) = 1 ∧
    (∀ j, j ≠ r.id →
      (db.upsert_one r).message.filter (fun m => m.id = j) =
        db.message.filter (fun m => m.id = j)) ∧
    (db.upsert_one r).upsert_one r = db.upsert_one r := by
  have key : (db.upsert_one r).message.filter (fun m => m.id = r.id) = [r] := by
    simp [Db.upsert_one, List.filter_append, filter_ne_then_eq]
  refine ⟨key, ?_, ?_, ?_⟩
  · rw [List.countP_eq_length_filter, key]; rfl
  · intro j hj
    simp only [Db.upsert_one, List.filter_append]
    have h1 : [r].filter (fun m => m.id = j) = [] := by
      have hd : decide (r.id = j) = false := decide_eq_false fun h => hj h.symm
      simp [List.filter_cons, hd]
    have h2 : (db.message.filter (fun m => m.id ≠ r.id)).filter
        (fun m => m.id = j) = db.message.filter (fun m => m.id = j) := by
      rw [List.filter_filter]
      refine List.filter_congr fun a _ => ?_
      by_cases ha : a.id = j
      · simp [ha, hj]
      · simp [ha]
    rw [h1, h2, List.append_nil]
  · have hr : [r].filter (fun m => m.id ≠ r.id) = [] := by
      simp [List.filter_cons]
    show Db.upsert_one r
      ⟨db.message.filter (fun m => m.id ≠ r.id) ++ [r], db.user⟩ = _
    simp only [Db.upsert_one, List.filter_append, filter_ne_idem, hr,
      List.append_nil]

/-- Closed instance of upsert_last_writer_wins: writing rec7b over db7
leaves rows with id 3 (there are none) untouched. -/
theorem upsert_last_writer_wins_witness :
    (3 : Int) ≠ rec7b.id ∧
    ((db7.upsert_one rec7b).message.filter (fun m => m.id = 3) =
      db7.message.filter (fun m => m.id = 3)) :=
  ⟨by decide, (upsert_last_writer_wins db7 rec7b).2.2.1 3 (by decide)⟩

/-!  Delete (claim about Database::delete). -/

/-- Splitting the rows hit by id :: rest into those hit by id and those
surviving id but hit by rest. -/
theorem filter_mem_cons_split (i : Int) (rest : List Int) :
    ∀ msgs : List MessageRecord,
      (msgs.filter (fun m => m.id ∈ i :: rest)).length =
        (msgs.filter (fun m => m.id = i)).length +
        ((msgs.filter (fun m => m.id ≠ i)).filter
          (fun m => m.id ∈ rest)).length := by
  intro msgs
  simp only [← List.countP_eq_length_filter, List.countP_filter]
  induction msgs with
  | nil => rfl
  | cons m t ih =>
    simp only [List.countP_cons]
    rw [ih]
    by_cases h1 : m.id = i <;> by_cases h2 : m.id ∈ rest <;>
      simp [h1, h2] <;> omega

/-- Rows surviving every id of i :: rest are the rows surviving i that
also survive rest. -/
theorem filter_not_mem_cons (i : Int) (rest : List Int) :
    ∀ msgs : List MessageRecord,
      (msgs.filter (fun m => m.id ≠ i)).filter (fun m => m.id ∉ rest) =
        msgs.filter (fun m => m.id ∉ i :: rest) := by
  intro msgs
  rw [List.filter_filter]
  refine List.filter_congr fun a _ => ?_
  by_cases h1 : a.id = i <;> by_cases h2 : a.id ∈ rest <;>
    simp [h1, h2, List.mem_cons]

/-- The for loop of Database::delete: total rows removed, surviving
rows, and statements executed, for any starting accumulator. -/
theorem delete_foldl :
    ∀ (ids : List Int) (msgs : List MessageRecord) (n s : Nat),
      ids.foldl Db.deleteStep (n, msgs, s) =
        (n + (msgs.filter (fun m => m.id ∈ ids)).length,
         msgs.filter (fun m => m.id ∉ ids), s + ids.length) := by
  intro ids
  induction ids with
  | nil =>
    intro msgs n s
    simp
  | cons i rest ih =>
    intro msgs n s
    rw [List.foldl_cons]
    simp only [Db.deleteStep, Db.deleteOne]
    rw [ih]
    simp only [Prod.mk.injEq]
    refine ⟨?_, filter_not_mem_cons i rest msgs, by simp; omega⟩
    rw [filter_mem_cons_split, List.countP_eq_length_filter]
    omega

/-- C6: delete returns the number of rows actually removed.  The empty
list short-circuits: count 0, state untouched, zero statements issued.
A non-empty list runs one statement per id and removes exactly the rows
whose id is listed, so a nonexistent id contributes 0; against a store
containing only id 7, delete [7, 999] returns 1. -/
theorem delete_correct :
    (∀ db, Db.delete [] db = (0, db, 0)) ∧
    (∀ (ids : List Int) (db : Db), ids ≠ [] →
      Db.delete ids db =
        ((db.message.filter (fun m => m.id ∈ ids)).length,
         { db with message := db.message.filter (fun m => m.id ∉ ids) },
         ids.length)) ∧
    (Db.delete [7, 999] db7).1 = 1 := by
  refine ⟨fun db => rfl, fun ids db hne => ?_, by decide⟩
  simp only [Db.delete, if_neg (by simpa using hne : ¬ ids.isEmpty = true)]
  rw [delete_foldl]
  simp

/-- Closed instance of delete_correct: deleting [7, 999] from the store
holding only id 7 removes one row, leaves the store empty, and runs two
statements. -/
theorem delete_correct_witness :
    ([7, 999] : List Int) ≠ [] ∧
    Db.delete [7, 999] db7 =
      ((db7.message.filter (fun m => m.id ∈ ([7, 999] : List Int))).length,
       { db7 with
          message := db7.message.filter (fun m => m.id ∉ ([7, 999] : List Int)) },
       2) :=
  ⟨by decide, delete_correct.2.1 [7, 999] db7 (by decide)⟩

/-!  Read-query scope (claims about Database::random and
Database::search). -/

/-- Everything either query returns comes from a stored row passing the
query's WHERE filter. -/
theorem mem_query_results
    {shuffle : List MessageRecord → List MessageRecord}
    (hshuffle : ∀ l, (shuffle l).Perm l) (p : MessageRecord → Bool)
    (msgs : List MessageRecord) (limit : Nat) :
    ∀ s ∈ ((shuffle (msgs.filter p)).take limit).map Db.toSearchResult,
      ∃ m ∈ msgs, p m = true ∧ Db.toSearchResult m = s := by
  intro s hs
  obtain ⟨m, hm, rfl⟩ := List.mem_map.1 hs
  have hm2 := (hshuffle _).mem_iff.1 (List.mem_of_mem_take hm)
  have hm3 := List.mem_filter.1 hm2
  exact ⟨m, hm3.1, hm3.2, rfl⟩

/-- C7: whatever the engine's row order, every record returned by random
or by search corresponds to a stored row with is_forwarded = true and a
non-null text, and each result list has at most limit entries; rows with
is_forwarded = false or null text can never appear. -/
theorem random_search_scope
    (shuffle : List MessageRecord → List MessageRecord)
    (hshuffle : ∀ l, (shuffle l).Perm l)
    (like : String → String → Bool) (db : Db) (reg : String) (limit : Nat) :
    ((db.random shuffle limit).length ≤ limit ∧
     ∀ s ∈ db.random shuffle limit, ∃ m ∈ db.message,
       m.is_forwarded = true ∧ m.text = some s.text ∧ m.id = s.id) ∧
    ((db.search shuffle like reg limit).length ≤ limit ∧
     ∀ s ∈ db.search shuffle like reg limit, ∃ m ∈ db.message,
       m.is_forwarded = true ∧ m.text = some s.text ∧ m.id = s.id) := by
  refine ⟨⟨?_, ?_⟩, ?_, ?_⟩
  · simp only [Db.random, List.length_map, List.length_take]
    exact Nat.min_le_left _ _
  · intro s hs
    obtain ⟨m, hm, hp, rfl⟩ := mem_query_results hshuffle _ _ _ s hs
    rw [Db.randomRow, Bool.and_eq_true] at hp
    refine ⟨m, hm, hp.1, ?_, rfl⟩
    match hmt : m.text with
    | none => rw [hmt] at hp; exact absurd hp.2 (by simp)
    | some t => simp [Db.toSearchResult, hmt]
  · simp only [Db.search, List.length_map, List.length_take]
    exact Nat.min_le_left _ _
  · intro s hs
    obtain ⟨m, hm, hp, rfl⟩ := mem_query_results hshuffle _ _ _ s hs
    match hmt : m.text with
    | none => rw [Db.searchRow, hmt] at hp; exact Bool.noConfusion hp
    | some t =>
      rw [Db.searchRow, hmt, Bool.and_eq_true] at hp
      exact ⟨m, hm, hp.2, by simp [Db.toSearchResult, hmt], rfl⟩

/-- Closed instance of random_search_scope at the identity order. -/
theorem random_search_scope_witness :
    (db7.random id 10).length ≤ 10 :=
  (random_search_scope id (fun l => List.Perm.refl l)
    (fun _ t => occursIn "x" t) db7 "x" 10).1.1

/-- C8: search performs a substring match over text: when the engine's
LIKE on the pattern '%reg%' agrees with plain substring occurrence,
every returned record's text contains reg; every stored forwarded row
with a non-null text containing reg belongs to the candidate set the
capped result is drawn from; every result comes from that candidate set,
capped at limit. -/
theorem search_substring
    (shuffle : List MessageRecord → List MessageRecord)
    (like : String → String → Bool) (reg : String)
    (hshuffle : ∀ l, (shuffle l).Perm l)
    (hlike : ∀ t, like ("%" ++ reg ++ "%") t = occursIn reg t)
    (db : Db) (limit : Nat) :
    (∀ s ∈ db.search shuffle like reg limit, occursIn reg s.text = true) ∧
    (∀ m ∈ db.message, m.is_forwarded = true → ∀ t, m.text = some t →
       occursIn reg t = true →
       m ∈ db.message.filter (Db.searchRow like reg)) ∧
    (∀ s ∈ db.search shuffle like reg limit,
       ∃ m ∈ db.message.filter (Db.searchRow like reg),
         Db.toSearchResult m = s) ∧
    (db.search shuffle like reg limit).length ≤ limit := by
  refine ⟨?_, ?_, ?_, ?_⟩
  · intro s hs
    obtain ⟨m, _, hp, rfl⟩ := mem_query_results hshuffle _ _ _ s hs
    match hmt : m.text with
    | none => rw [Db.searchRow, hmt] at hp; exact Bool.noConfusion hp
    | some t =>
      rw [Db.searchRow, hmt, Bool.and_eq_true, hlike] at hp
      simpa [Db.toSearchResult, hmt] using hp.1
  · intro m hm hfwd t htext hocc
    refine List.mem_filter.2 ⟨hm, ?_⟩
    rw [Db.searchRow, htext, Bool.and_eq_true, hlike]
    exact ⟨hocc, hfwd⟩
  · intro s hs
    obtain ⟨m, hm, hmap⟩ := List.mem_map.1 hs
    exact ⟨m, (hshuffle _).mem_iff.1 (List.mem_of_mem_take hm), hmap⟩
  · simp only [Db.search, List.length_map, List.length_take]
    exact Nat.min_le_left _ _

/-- Closed instance of search_substring with the LIKE hypothesis
discharged definitionally. -/
theorem search_substring_witness :
    (db7.search id (fun _ t => occursIn "x" t) "x" 10).length ≤ 10 :=
  (search_substring id (fun _ t => occursIn "x" t) "x"
    (fun l => List.Perm.refl l) (fun _ => rfl) db7 10).2.2.2

/-!  Counter table (claim about Database::bump_user_count and the other
operations' effect on the user table). -/

/-- C9: the counter table is append-and-increment only: every store
operation either leaves the user table unchanged or is
bump_user_count uid, which in one statement creates the row at count 1
when the user is absent and increments the existing count by exactly 1
otherwise; and under every operation each existing counter row survives
under the same user id with a count at least as large, so no operation
decrements a count or deletes a counter row. -/
theorem counter_append_increment_only :
    (∀ (op : DbOp) (db : Db),
       (applyOp op db).user = db.user ∨
       ∃ uid, op = DbOp.bumpOp uid ∧ applyOp op db = db.bump_user_count uid) ∧
    (∀ (uid : Int) (db : Db),
       (db.user.any (fun r => r.1 = uid) = false →
         (db.bump_user_count uid).user = db.user ++ [(uid, 1)]) ∧
       (db.user.any (fun r => r.1 = uid) = true →
         (db.bump_user_count uid).user =
           db.user.map (fun r => if r.1 = uid then (r.1, r.2 + 1) else r))) ∧
    (∀ (op : DbOp) (db : Db), ∀ p ∈ db.user,
       ∃ c, (p.1, c) ∈ (applyOp op db).user ∧ p.2 ≤ c) := by
  have huser : ∀ (op : DbOp) (db : Db),
      (∀ uid, op ≠ DbOp.bumpOp uid) → (applyOp op db).user = db.user := by
    intro op db hop
    cases op with
    | randomOp s l => rfl
    | searchOp s lk r l => rfl
    | upsertOp m => rfl
    | deleteOp ids => rw [applyOp, Db.delete]; split <;> rfl
    | existingIdsOp => rfl
    | bumpOp uid => exact absurd rfl (hop uid)
    | statsOp a b u => rfl
  refine ⟨?_, ?_, ?_⟩
  · intro op db
    cases op with
    | bumpOp uid => exact Or.inr ⟨uid, rfl, rfl⟩
    | randomOp s l => exact Or.inl (huser _ db (by intro uid h; cases h))
    | searchOp s lk r l => exact Or.inl (huser _ db (by intro uid h; cases h))
    | upsertOp m => exact Or.inl (huser _ db (by intro uid h; cases h))
    | deleteOp ids => exact Or.inl (huser _ db (by intro uid h; cases h))
    | existingIdsOp => exact Or.inl (huser _ db (by intro uid h; cases h))
    | statsOp a b u => exact Or.inl (huser _ db (by intro uid h; cases h))
  · intro uid db
    constructor
    · intro hab
      rw [Db.bump_user_count, if_neg (by rw [hab]; exact Bool.false_ne_true)]
    · intro hpres
      rw [Db.bump_user_count, if_pos hpres]
  · intro op db p hp
    obtain ⟨pu, pc⟩ := p
    cases op with
    | bumpOp uid =>
      show ∃ c, (pu, c) ∈ (db.bump_user_count uid).user ∧ pc ≤ c
      rw [Db.bump_user_count]
      by_cases hpres : db.user.any (fun r => r.1 = uid) = true
      · rw [if_pos hpres]
        have hmem := List.mem_map_of_mem
          (fun r : Int × Nat => if r.1 = uid then (r.1, r.2 + 1) else r) hp
        by_cases hu : pu = uid
        · refine ⟨pc + 1, ?_, Nat.le_succ _⟩
          simpa [hu] using hmem
        · refine ⟨pc, ?_, le_refl _⟩
          simpa [hu] using hmem
      · rw [if_neg hpres]
        exact ⟨pc, List.mem_append_left _ hp, le_refl _⟩
    | randomOp s l => exact ⟨pc, hp, le_refl _⟩
    | searchOp s lk r l => exact ⟨pc, hp, le_refl _⟩
    | upsertOp m => exact ⟨pc, hp, le_refl _⟩
    | deleteOp ids =>
      refine ⟨pc, ?_, le_refl _⟩
      rw [huser _ db (by intro uid h; cases h)]
      exact hp
    | existingIdsOp => exact ⟨pc, hp, le_refl _⟩
    | statsOp a b u => exact ⟨pc, hp, le_refl _⟩

/-- Closed instance of counter_append_increment_only: bumping a present
user increments their row. -/
theorem counter_append_increment_only_witness :
    statsDb.user.any (fun r => r.1 = 1) = true ∧
    (statsDb.bump_user_count 1).user =
      statsDb.user.map (fun r => if r.1 = 1 then (r.1, r.2 + 1) else r) :=
  ⟨by decide, (counter_append_increment_only.2.1 1 statsDb).2 (by decide)⟩

/-!  Live-sync no-op cases (claim about App::handle_update). -/

/-- C10: the two named no-op cases of live sync leave all state
untouched: a new-message or message-deleted event whose channel identity
differs from the configured chat, and an inline-result-chosen event
whose chosen result id is the synthetic stats entry, all return with the
database exactly as it was, so neither the message table nor the counter
table is written and the stats selection does not bump the user's
count. -/
theorem handle_update_noop_cases
    (chatId : Int) (shuffle : List MessageRecord → List MessageRecord)
    (like : String → String → Bool) (pickH pickS : Nat) (db : Db) :
    (∀ (msgChatId : Int) (rec : MessageRecord), msgChatId ≠ chatId →
       handle_update chatId shuffle like pickH pickS
         (Update.newMessage msgChatId rec) db = db) ∧
    (∀ (channelId : Option Int) (ids : List Int), channelId ≠ some chatId →
       handle_update chatId shuffle like pickH pickS
         (Update.messageDeleted channelId ids) db = db) ∧
    (∀ senderId : Int,
       handle_update chatId shuffle like pickH pickS
         (Update.inlineSend senderId USER_STATS_ID) db = db) := by
  refine ⟨fun m rec h => ?_, fun cid ids h => ?_, fun sid => ?_⟩
  · simp [handle_update, h]
  · simp [handle_update, h]
  · simp [handle_update]

/-- Closed instance of handle_update_noop_cases: a message in chat 5
while chat 1 is configured changes nothing. -/
theorem handle_update_noop_cases_witness :
    (5 : Int) ≠ (1 : Int) ∧
    handle_update 1 id (fun _ _ => false) 0 0
      (Update.newMessage 5 rec7) db7 = db7 :=
  ⟨by decide,
   (handle_update_noop_cases 1 id (fun _ _ => false) 0 0 db7).1 5 rec7
     (by decide)⟩

/-!  Retry wrapper (claim about invoke). -/

/-- A flood-wait result makes invoke sleep the advertised wait (30 when
the error carries no value) and re-invoke the same operation at the next
attempt index. -/
theorem invokeRun_flood {R : Type} (f : Nat → Except InvocationError R)
    (fuel k : Nat) (sleeps : List Nat) (v : Option Nat)
    (h : f k = .error (.rpc 420 v)) :
    invokeRun f (fuel + 1) k sleeps =
      invokeRun f fuel (k + 1) (sleeps ++ [v.getD 30]) := by
  rw [invokeRun, h]
  simp

/-- A success returns immediately after this one invocation. -/
theorem invokeRun_ok {R : Type} (f : Nat → Except InvocationError R)
    (fuel k : Nat) (sleeps : List Nat) (r : R) (h : f k = .ok r) :
    invokeRun f (fuel + 1) k sleeps = some (.ok r, k + 1, sleeps) := by
  rw [invokeRun, h]

/-- Any non-flood-wait failure is returned immediately, untouched. -/
theorem invokeRun_err {R : Type} (f : Nat → Except InvocationError R)
    (fuel k : Nat) (sleeps : List Nat) (e : InvocationError)
    (h : f k = .error e) (hfw : isFloodWait e = false) :
    invokeRun f (fuel + 1) k sleeps = some (.error e, k + 1, sleeps) := by
  cases e with
  | rpc code v =>
    have hcode : ¬ code = 420 := by
      intro hc
      rw [isFloodWait, hc] at hfw
      simp at hfw
    rw [invokeRun, h]
    simp [hcode]
  | other t => rw [invokeRun, h]

/-- C3: invoke re-invokes the same operation after sleeping the
advertised wait (default 30) on a RateLimited (rpc code 420) failure,
returns any other failure immediately after a single invocation, returns
a success immediately after a single invocation, and for an operation
that fails RateLimited with wait 0 exactly twice and then succeeds it
returns the success after exactly three invocations, having slept twice
for 0 seconds. -/
theorem invoke_retry_policy {R : Type} :
    (∀ (f : Nat → Except InvocationError R) (fuel : Nat) (r : R),
       f 0 = .ok r → invoke (fuel + 1) f = some (.ok r, 1, [])) ∧
    (∀ (f : Nat → Except InvocationError R) (fuel : Nat)
       (e : InvocationError), f 0 = .error e → isFloodWait e = false →
       invoke (fuel + 1) f = some (.error e, 1, [])) ∧
    (∀ (f : Nat → Except InvocationError R) (fuel : Nat) (v : Option Nat),
       f 0 = .error (.rpc 420 v) →
       invoke (fuel + 1) f = invokeRun f fuel 1 [v.getD 30]) ∧
    (∀ (f : Nat → Except InvocationError R) (r : R),
       f 0 = .error (.rpc 420 (some 0)) → f 1 = .error (.rpc 420 (some 0)) →
       f 2 = .ok r → invoke 3 f = some (.ok r, 3, [0, 0])) := by
  refine ⟨?_, ?_, ?_, ?_⟩
  · intro f fuel r h
    simpa using invokeRun_ok f fuel 0 [] r h
  · intro f fuel e h hfw
    simpa using invokeRun_err f fuel 0 [] e h hfw
  · intro f fuel v h
    simpa using invokeRun_flood f fuel 0 [] v h
  · intro f r h0 h1 h2
    calc invoke 3 f = invokeRun f 3 0 [] := rfl
      _ = invokeRun f 2 1 [0] := by
            simpa using invokeRun_flood f 2 0 [] (some 0) h0
      _ = invokeRun f 1 2 [0, 0] := by
            simpa using invokeRun_flood f 1 1 [0] (some 0) h1
      _ = some (.ok r, 3, [0, 0]) := by
            simpa using invokeRun_ok f 0 2 [0, 0] r h2

/-- Closed instance of invoke_retry_policy on the operation that flood
waits twice and then succeeds with 7. -/
theorem invoke_retry_policy_witness :
    twoFloodThenOk 0 = .error (.rpc 420 (some 0)) ∧
    twoFloodThenOk 1 = .error (.rpc 420 (some 0)) ∧
    twoFloodThenOk 2 = .ok 7 ∧
    invoke 3 twoFloodThenOk = some (.ok 7, 3, [0, 0]) :=
  ⟨rfl, rfl, rfl, invoke_retry_policy.2.2.2 twoFloodThenOk 7 rfl rfl rfl⟩

/-!  Counter/rank query (claim about Database::get_user_stats).  The SQL
is SELECT count, count(*), COUNT(count <= u.count) FROM user u
HAVINg user_id = ?1.  On the counter table {A:3, B:5, C:5} the claimed
result for user A is count 3, total_users 3, lower_users 1; the query as
written cannot produce it, whatever row the engine's arbitrary-row
semantics supplies for the bare columns. -/

/-- C2 fails on the code: on counter table {A:3, B:5, C:5} with A = 1,
get_user_stats for user 1 never equals some (1, 3, 3, 1): for every
choice of the rows supplying the bare HAVING and SELECT columns the
result is either no row at all (HAVING saw a row other than A's) or has
lower_users = 3, because COUNT(count <= u.count) counts every row whose
tautological comparison is non-NULL; with both picks at A's row the code
returns count 3, total_users 3, lower_users 3. -/
theorem get_user_stats_diverges :
    (∀ pickH pickS : Nat,
       decide (Db.get_user_stats pickH pickS 1 statsDb =
         some ⟨1, 3, 3, 1⟩) = false) ∧
    Db.get_user_stats 0 0 1 statsDb = some ⟨1, 3, 3, 3⟩ := by
  refine ⟨?_, by decide⟩
  intro pickH pickS
  rw [decide_eq_false_iff_not]
  intro h
  simp only [Db.get_user_stats, statsDb] at h
  split at h
  · simp only [Option.some.injEq, UserStat.mk.injEq] at h
    have := h.2.2.2
    revert this
    decide
  · exact Option.noConfusion h

/-!  Backfill (claim about App::populate).  The trace of a backfill run
depends on the remote source only through which ids it has a record for,
so the run against any source matching the scenario's found/not-found
pattern is compared with the run against the concrete simSource. -/

/-- The value drawn by one next() call is at or beyond the state and the
new state is one past the value. -/
theorem iterNext_step (inner : Finset Int) (curr : Int) :
    curr ≤ (iterNext inner curr).1 ∧
    (iterNext inner curr).2 = (iterNext inner curr).1 + 1 := by
  obtain ⟨⟨v, c⟩, hvc⟩ :=
    Option.isSome_iff_exists.1 (nextFuel_card_isSome inner curr)
  obtain ⟨h1, h2, _, _⟩ := nextFuel_eq_some hvc
  rw [iterNext, hvc]
  simp only [Option.getD_some]
  exact ⟨h2, h1⟩

/-- Every id a batch draws is at or beyond the iterator state it started
from, and so is the state left behind. -/
theorem takeBatch_ge (inner : Finset Int) :
    ∀ (n : Nat) (curr : Int),
      (∀ i ∈ (takeBatch inner n curr).1, curr ≤ i) ∧
      curr ≤ (takeBatch inner n curr).2 := by
  intro n
  induction n with
  | zero => intro curr; exact ⟨by simp [takeBatch], le_refl _⟩
  | succ n ih =>
    intro curr
    obtain ⟨hv, hsnd⟩ := iterNext_step inner curr
    constructor
    · intro i hi
      rw [takeBatch] at hi
      rcases List.mem_cons.1 hi with rfl | hi
      · exact hv
      · have := (ih (iterNext inner curr).2).1 i hi
        omega
    · rw [takeBatch]
      have := (ih (iterNext inner curr).2).2
      show curr ≤ (takeBatch inner n (iterNext inner curr).2).2
      omega

/-- The for loop's control flow and trace depend on the fetched results
only through which of them are found: two sources agreeing on isSome
over the batch produce the same consecutive-empty counter, added count,
number of upserts, classified ids and stop decision. -/
theorem processBatch_congr (s₁ s₂ : Int → Option MessageRecord) :
    ∀ ids : List Int, (∀ i ∈ ids, (s₁ i).isSome = (s₂ i).isSome) →
    ∀ (consec added : Nat) (ups₁ ups₂ : List MessageRecord)
      (classified : List Int), ups₁.length = ups₂.length →
      (processBatch (ids.map fun id => (id, s₁ id)) consec added ups₁
          classified).consec =
        (processBatch (ids.map fun id => (id, s₂ id)) consec added ups₂
          classified).consec ∧
      (processBatch (ids.map fun id => (id, s₁ id)) consec added ups₁
          classified).added =
        (processBatch (ids.map fun id => (id, s₂ id)) consec added ups₂
          classified).added ∧
      (processBatch (ids.map fun id => (id, s₁ id)) consec added ups₁
          classified).ups.length =
        (processBatch (ids.map fun id => (id, s₂ id)) consec added ups₂
          classified).ups.length ∧
      (processBatch (ids.map fun id => (id, s₁ id)) consec added ups₁
          classified).classified =
        (processBatch (ids.map fun id => (id, s₂ id)) consec added ups₂
          classified).classified ∧
      (processBatch (ids.map fun id => (id, s₁ id)) consec added ups₁
          classified).stopped =
        (processBatch (ids.map fun id => (id, s₂ id)) consec added ups₂
          classified).stopped := by
  intro ids
  induction ids with
  | nil =>
    intro _ consec added ups₁ ups₂ classified hlen
    exact ⟨rfl, rfl, hlen, rfl, rfl⟩
  | cons i rest ih =>
    intro hS consec added ups₁ ups₂ classified hlen
    have hrest : ∀ j ∈ rest, (s₁ j).isSome = (s₂ j).isSome :=
      fun j hj => hS j (List.mem_cons_of_mem i hj)
    rw [List.map_cons, List.map_cons]
    by_cases hc : consec > 10
    · simp only [processBatch, if_pos hc]
      simp [hlen]
    · simp only [processBatch, if_neg hc]
      have hI := hS i (List.mem_cons_self i rest)
      cases h1 : s₁ i with
      | none =>
        have h2 : s₂ i = none := by
          rw [h1] at hI
          cases h2 : s₂ i with
          | none => rfl
          | some m => rw [h2] at hI; simp at hI
        rw [h2]
        exact ih hrest (consec + 1) added ups₁ ups₂ (classified ++ [i]) hlen
      | some m₁ =>
        have h2 : ∃ m₂, s₂ i = some m₂ := by
          rw [h1] at hI
          cases h2 : s₂ i with
          | none => rw [h2] at hI; simp at hI
          | some m => exact ⟨m, rfl⟩
        obtain ⟨m₂, h2⟩ := h2
        rw [h2]
        exact ih hrest 0 (added + 1) (ups₁ ++ [m₁]) (ups₂ ++ [m₂])
          (classified ++ [i]) (by simp [hlen])

/-- The whole backfill's trace depends on the source only through isSome
on the ids at or beyond the iterator state. -/
theorem populateLoop_congr (s₁ s₂ : Int → Option MessageRecord)
    (inner : Finset Int) :
    ∀ (fuel : Nat) (curr : Int),
      (∀ i : Int, curr ≤ i → (s₁ i).isSome = (s₂ i).isSome) →
      ∀ (consec added : Nat) (ups₁ ups₂ : List MessageRecord)
        (classified fetched : List Int), ups₁.length = ups₂.length →
        popTrace (populateLoop s₁ inner fuel curr consec added ups₁
          classified fetched) =
        popTrace (populateLoop s₂ inner fuel curr consec added ups₂
          classified fetched) := by
  intro fuel
  induction fuel with
  | zero => intros; rfl
  | succ fuel ih =>
    intro curr hS consec added ups₁ ups₂ classified fetched hlen
    have hbatch : ∀ i ∈ (takeBatch inner 100 curr).1,
        (s₁ i).isSome = (s₂ i).isSome :=
      fun i hi => hS i ((takeBatch_ge inner 100 curr).1 i hi)
    obtain ⟨e1, e2, e3, e4, e5⟩ := processBatch_congr s₁ s₂ _ hbatch consec
      added ups₁ ups₂ classified hlen
    simp only [populateLoop]
    rw [← e5]
    by_cases hstop : (processBatch ((takeBatch inner 100 curr).1.map
        fun id => (id, s₁ id)) consec added ups₁ classified).stopped
    · rw [if_pos hstop, if_pos hstop]
      simp only [popTrace, Option.map_some']
      rw [e2, e3, e4]
    · rw [if_neg hstop, if_neg hstop]
      rw [← e1, ← e2, ← e4]
      exact ih (takeBatch inner 100 curr).2
        (fun i hi => hS i (le_trans (takeBatch_ge inner 100 curr).2 hi))
        _ _ _ _ _ _ e3

set_option maxRecDepth 10000 in
/-- C1 fails as stated on the fetch bound: in the scenario (records for
ids 1..100, not-found beyond) the backfill terminates, but its second
batched fetch requests the whole batch 101..200, so candidate id 200 —
greater than 111 — is fetched. -/
theorem backfill_fetches_past_111 :
    (populate simSource ∅ 2).isSome = true ∧
    200 ∈ fetchedOf (populate simSource ∅ 2) ∧
    ¬ (200 : Int) ≤ 111 :=
  ⟨by decide, by decide, by decide⟩

set_option maxRecDepth 10000 in
/-- C1 (amended): against any source with records exactly for ids 1..100
among the positive ids and not-found beyond, backfill with an empty
exclusion set terminates within two batches, upserts exactly 100
records, examines (classifies) no candidate id beyond 111 — the per-item
stopping check fires 11 consecutive misses after 100 hits — while the
batched fetches request candidate ids no further than 200 (the whole
second batch of 100). -/
theorem backfill_scenario (source : Int → Option MessageRecord)
    (hsrc : ∀ i : Int, 1 ≤ i →
      (source i).isSome = decide (1 ≤ i ∧ i ≤ 100)) :
    ∃ r, populate source ∅ 2 = some r ∧ r.added = 100 ∧
      r.ups.length = 100 ∧ (∀ id ∈ r.classified, id ≤ 111) ∧
      (∀ id ∈ r.fetched, id ≤ 200) := by
  have hsim : ∀ i : Int, 1 ≤ i → (source i).isSome = (simSource i).isSome := by
    intro i hi
    rw [hsrc i hi, simSource]
    by_cases hc : 1 ≤ i ∧ i ≤ 100 <;> simp [hc]
  have hcong : popTrace (populate source ∅ 2) =
      popTrace (populate simSource ∅ 2) :=
    populateLoop_congr source simSource ∅ 2 1 hsim 0 0 [] [] [] [] rfl
  obtain ⟨rs, hrs⟩ := Option.isSome_iff_exists.1
    (show (populate simSource ∅ 2).isSome = true by decide)
  have hconc : (populate simSource ∅ 2).map (fun r => (r.added,
      r.ups.length, r.classified.all (fun id => decide (id ≤ 111)),
      r.fetched.all (fun id => decide (id ≤ 200)))) =
      some (100, 100, true, true) := by decide
  rw [hrs] at hconc hcong
  simp only [Option.map_some', Option.some.injEq, Prod.mk.injEq] at hconc
  obtain ⟨ha, hu, hcl, hfe⟩ := hconc
  simp only [popTrace, Option.map_some'] at hcong
  obtain ⟨r, hr, hfr⟩ := Option.map_eq_some'.1 hcong
  obtain ⟨fa, fu, fcl, ffe⟩ : r.added = rs.added ∧
      r.ups.length = rs.ups.length ∧ r.classified = rs.classified ∧
      r.fetched = rs.fetched := by
    simpa [Prod.mk.injEq] using hfr
  refine ⟨r, hr, by rw [fa, ha], by rw [fu, hu], ?_, ?_⟩
  · intro id hid
    rw [fcl] at hid
    have := List.all_eq_true.1 hcl id hid
    exact of_decide_eq_true this
  · intro id hid
    rw [ffe] at hid
    have := List.all_eq_true.1 hfe id hid
    exact of_decide_eq_true this

/-- Closed instance of backfill_scenario at simSource itself: the
scenario hypothesis holds definitionally and the run terminates. -/
theorem backfill_scenario_witness :
    (populate simSource ∅ 2).isSome = true := by
  obtain ⟨r, hr, _⟩ := backfill_scenario simSource (fun i _ => by
    by_cases hc : 1 ≤ i ∧ i ≤ 100 <;> simp [simSource, hc])
  rw [hr]
  rfl

end Realmk
